import Mathlib

/-!
Verification of the directive-based template rendering engine of
`scripts/doc_workflow.py` (functions `render_template`, `_resolve_inner_if`,
`_resolve_dotted`, `_to_str`).

The Python data values flowing through the engine (`None`, `bool`, `int`,
`float`, `str`, `list`, `dict`) are embedded as the inductive `Value`.
Python floats are modelled as exact rationals (`ℚ`); `dict`s as association
lists in insertion order (Python dicts preserve insertion order and have no
duplicate keys).  Strings are scanned as `List Char`.

The regular-expression passes of the source
(`re.sub` with patterns
  each: `\x7b\x7b#each\s+([\w.]+)\x7d\x7d(.*?)\x7b\x7b/each\x7d\x7d` (DOTALL),
  if:   `\x7b\x7b#if\s+([\w.一-鿿]+)\x7d\x7d(.*?)\x7b\x7b/if\x7d\x7d` (DOTALL),
  var:  `\x7b\x7b([\w.一-鿿]+)\x7d\x7d`)
are embedded as explicit left-to-right scans (`reSub`): at each position we
try to match the pattern; on success the handler's string is emitted and the
scan continues after the match, otherwise the character is copied.  Because
the character class of a key (`\w`, dot, CJK) is disjoint from whitespace and
from `\x7d`, the greedy `+` quantifiers are equivalent to maximal munch, and
the non-greedy `(.*?)` body is the text up to the first occurrence of the
closing tag, so the backtracking regex engine and this scan agree.  In
Python 3, `\w` already contains the CJK range, so the key character class of
all three patterns is the same set; `isKeyChar` models it (restricted to
ASCII alphanumerics, underscore, the CJK block U+4E00–U+9FFF and the dot,
which covers every identifier the spec admits, §3).
-/

/-- A Python value as the engine sees it: `None`, `bool`, `int`, `float`
(modelled as an exact rational), `str`, `list`, `dict` (ordered association
list). -/
inductive Value where
  | null
  | bool (b : Bool)
  | int (n : ℤ)
  | float (q : ℚ)
  | str (s : String)
  | list (vs : List Value)
  | record (fs : List (String × Value))

/-- A Python `dict` mapping field names to values. -/
abbrev Ctx := List (String × Value)

/-- The character `\x7b`. -/
def obrace : Char := Char.ofNat 123

/-- The character `\x7d`. -/
def cbrace : Char := Char.ofNat 125

/-- The identifier characters of spec §3: ASCII letters and digits,
underscore, and CJK ideographs (the `\w`/`一-鿿` class of the source
patterns, with `\w` read as its ASCII core plus the CJK block). -/
def isIdentChar (c : Char) : Bool :=
  c.isAlphanum || c == '_' || (0x4e00 ≤ c.toNat && c.toNat ≤ 0x9fff)

/-- A character of a directive key: identifier characters or a dot
(the `[\w.一-鿿]` class; Python's Unicode `\w` subsumes the CJK
range, so the `[\w.]` class of the each-pattern denotes the same set). -/
def isKeyChar (c : Char) : Bool :=
  isIdentChar c || c == '.'

/-- Whitespace (`\s`): space, tab, newline, carriage return, vertical tab,
form feed. -/
def isSpaceChar (c : Char) : Bool :=
  c == ' ' || c == '\t' || c == '\n' || c == '\r' || c == '\x0b' || c == '\x0c'

/-- The literal opener of an if-block: `\x7b\x7b#if`. -/
def ifOpenTok : List Char := [obrace, obrace, '#', 'i', 'f']

/-- The literal closer of an if-block: `\x7b\x7b/if\x7d\x7d`. -/
def ifCloseTok : List Char := [obrace, obrace, '/', 'i', 'f', cbrace, cbrace]

/-- The literal opener of an each-block: `\x7b\x7b#each`. -/
def eachOpenTok : List Char := [obrace, obrace, '#', 'e', 'a', 'c', 'h']

/-- The literal closer of an each-block: `\x7b\x7b/each\x7d\x7d`. -/
def eachCloseTok : List Char := [obrace, obrace, '/', 'e', 'a', 'c', 'h', cbrace, cbrace]

/-- The literal token `\x7b\x7bk\x7d\x7d` for a key `k`, as the source builds
with `"\x7b\x7b" + k + "\x7d\x7d"`. -/
def varTok (k : List Char) : List Char :=
  obrace :: obrace :: k ++ [cbrace, cbrace]

/-- Python `d.get(k)` on an ordered dict, as `Option`. -/
def dictGet (d : Ctx) (k : String) : Option Value :=
  (d.find? (fun p => p.1 == k)).map (fun p => p.2)

/-- Python `\x7b**a, **b\x7d` for duplicate-free dicts: keys of `a` in order
(with the value from `b` on collision), then the keys of `b` not in `a`. -/
def mergeDict (a b : Ctx) : Ctx :=
  a.map (fun p => match dictGet b p.1 with | some v => (p.1, v) | none => p)
    ++ b.filter (fun p => (dictGet a p.1).isNone)

/-- Python truthiness `bool(val)` of a value. -/
def pyTruthy : Value → Bool
  | .null => false
  | .bool b => b
  | .int n => !(n == 0)
  | .float q => !(q == 0)
  | .str s => !(s == "")
  | .list l => !l.isEmpty
  | .record r => !r.isEmpty

/-- Python `val == []`: only an empty list compares equal to `[]`. -/
def eqEmptyList : Value → Bool
  | .list l => l.isEmpty
  | _ => false

/-- Python `val == 0`: the int `0`, the float `0.0`, and `False`. -/
def eqZero : Value → Bool
  | .int n => n == 0
  | .float q => q == 0
  | .bool b => !b
  | _ => false

/-- The conditional test of the source, `if val and val != [] and val != 0:`
(`replace_if` and `_resolve_inner_if.replace`). -/
def condTruthy (v : Value) : Bool :=
  pyTruthy v && !eqEmptyList v && !eqZero v

/-- The emptiness test of `replace_each`:
`v is None or v == "" or v == []`. -/
def isEmptyVal : Value → Bool
  | .null => true
  | .str s => s == ""
  | .list l => l.isEmpty
  | _ => false

/-- `all(v is None or v == "" or v == [] for v in item.values())`. -/
def itemsAllEmpty (fs : List (String × Value)) : Bool :=
  fs.all (fun p => isEmptyVal p.2)

/-- The decimal digits of the fractional part `r/d`, expanded until the
remainder vanishes (bounded by fuel; every dyadic rational terminates). -/
def fracDigits : Nat → Nat → Nat → String
  | 0, _, _ => ""
  | _, 0, _ => ""
  | fuel+1, r, d =>
    (Nat.repr ((r * 10) / d)) ++ fracDigits fuel ((r * 10) % d) d

/-- Python `str` of a float, on the exact rational it denotes: integer part,
a dot, and the fractional digits (`str(3.0) = "3.0"`). -/
def floatRepr (q : ℚ) : String :=
  (if q < 0 then "-" else "")
    ++ toString (q.num.natAbs / q.den) ++ "."
    ++ (if q.num.natAbs % q.den == 0 then "0"
        else fracDigits 1100 (q.num.natAbs % q.den) q.den)

mutual

/-- Python `str(val)` (`mode = false`) and `repr(val)` (`mode = true`);
`str` and `repr` differ only on strings, where `repr` quotes.  String `repr`
is modelled without escape processing, faithful for strings free of quotes,
backslashes and control characters.  Floats print their exact decimal
expansion (they are modelled as decimal-exact rationals); a `str`/`repr`
of a float appears in no theorem below. -/
def pyStrM : Bool → Value → String
  | _, .null => "None"
  | _, .bool true => "True"
  | _, .bool false => "False"
  | _, .int n => toString n
  | _, .float q => floatRepr q
  | mode, .str s => if mode then "\x27" ++ s ++ "\x27" else s
  | _, .list vs => "[" ++ String.intercalate ", " (pyStrL vs) ++ "]"
  | _, .record fs => "\x7b" ++ String.intercalate ", " (pyStrR fs) ++ "\x7d"

/-- `repr` of each element of a list. -/
def pyStrL : List Value → List String
  | [] => []
  | v :: vs => pyStrM true v :: pyStrL vs

/-- `repr(k): repr(v)` for each entry of a dict. -/
def pyStrR : List (String × Value) → List String
  | [] => []
  | (k, v) :: fs => ("\x27" ++ k ++ "\x27: " ++ pyStrM true v) :: pyStrR fs

end

/-- Python `int(val)`: truncation toward zero. -/
def intTrunc (q : ℚ) : ℤ :=
  Int.tdiv q.num (q.den : ℤ)

/-- Round `100·q` (for `q ≥ 0`) to the nearest integer, ties to even, in
integer arithmetic — the rounding of Python's fixed-point `format(val, '.2f')`. -/
def round2 (q : ℚ) : ℕ :=
  let n : ℤ := 100 * q.num
  let d : ℤ := (q.den : ℤ)
  let t : ℤ := n / d
  let r : ℤ := n % d
  (if d < 2 * r then t + 1
   else if 2 * r < d then t
   else if t % 2 == 0 then t else t + 1).toNat

/-- Two decimal digits, zero-padded on the left. -/
def pad2 (m : ℕ) : String :=
  if m < 10 then "0" ++ toString m else toString m

/-- `format(q, '.2f')` for `q ≥ 0`. -/
def formatNonneg2 (q : ℚ) : String :=
  toString (round2 q / 100) ++ "." ++ pad2 (round2 q % 100)

/-- Python `f"\x7bval:.2f\x7d"`: sign, then the magnitude to two decimal
places. -/
def formatFloat2 (q : ℚ) : String :=
  if q < 0 then "-" ++ formatNonneg2 (-q) else formatNonneg2 q

/-- `_to_str` of the source:
`None` to `""`; a float equal to its integer truncation to `str(int(val))`,
any other float to `f"\x7bval:.2f\x7d"`; a list to its elements' `str`
joined by `", "`; anything else to `str(val)`. -/
def _to_str : Value → String
  | .null => ""
  | .float q =>
      if ((intTrunc q : ℤ) : ℚ) = q then toString (intTrunc q)
      else formatFloat2 q
  | .list vs => String.intercalate ", " (vs.map (pyStrM false))
  | v => pyStrM false v

/-- Python `key.split(".")` on the characters of the key. -/
def splitDots : List Char → List (List Char)
  | [] => [[]]
  | c :: cs =>
    if c == '.' then [] :: splitDots cs
    else
      match splitDots cs with
      | g :: gs => (c :: g) :: gs
      | [] => [[c]]

/-- The loop of `_resolve_dotted`: descend one key per part; a missing key,
an explicit `None`, or a non-dict intermediate yields `None`. -/
def resolveParts : Value → List String → Value
  | current, [] => current
  | current, p :: rest =>
    match current with
    | .record d =>
      match dictGet d p with
      | none => .null
      | some .null => .null
      | some v => resolveParts v rest
    | _ => .null

/-- `_resolve_dotted(ctx, key)` of the source. -/
def _resolve_dotted (ctx : Ctx) (key : List Char) : Value :=
  resolveParts (.record ctx) ((splitDots key).map String.mk)

/-- Strip a literal prefix, returning the remainder on success. -/
def stripPrefixChars : List Char → List Char → Option (List Char)
  | [], cs => some cs
  | _ :: _, [] => none
  | p :: ps, c :: cs => if p == c then stripPrefixChars ps cs else none

/-- Split at the first occurrence of the literal `pat`: the text before it
and the text after it. -/
def splitAtFirst (pat : List Char) : List Char → Option (List Char × List Char)
  | [] =>
    match stripPrefixChars pat [] with
    | some r => some ([], r)
    | none => none
  | c :: cs' =>
    match stripPrefixChars pat (c :: cs') with
    | some r => some ([], r)
    | none => (splitAtFirst pat cs').map (fun x => (c :: x.1, x.2))

/-- Match a block directive `openTok \s+ key \x7d\x7d body closeTok` at the
head of the text: the key (maximal run of key characters after maximal
whitespace) and the non-greedy body (up to the first closer).  Returns
`(key, body, rest)`. -/
def matchBlockAt (openTok closeTok : List Char) (cs : List Char) :
    Option (List Char × List Char × List Char) :=
  match stripPrefixChars openTok cs with
  | none => none
  | some r1 =>
    if (r1.takeWhile isSpaceChar).isEmpty then none
    else
      let r2 := r1.dropWhile isSpaceChar
      let key := r2.takeWhile isKeyChar
      if key.isEmpty then none
      else
        match stripPrefixChars [cbrace, cbrace] (r2.dropWhile isKeyChar) with
        | none => none
        | some r4 =>
          match splitAtFirst closeTok r4 with
          | none => none
          | some x => some (key, x.1, x.2)

/-- Match a variable token `\x7b\x7bkey\x7d\x7d` at the head of the text. -/
def matchVarAt (cs : List Char) : Option (List Char × List Char) :=
  match stripPrefixChars [obrace, obrace] cs with
  | none => none
  | some r1 =>
    let key := r1.takeWhile isKeyChar
    if key.isEmpty then none
    else
      match stripPrefixChars [cbrace, cbrace] (r1.dropWhile isKeyChar) with
      | none => none
      | some r2 => some (key, r2)

/-- The scan of `re.sub` with a function replacement: at each position try
the matcher; on a match emit the replacement and continue after the match,
otherwise copy one character.  Fuel bounds the recursion; with fuel at least
the length of the text and matchers that always consume at least one
character, the fuel never runs out. -/
def reSub (tryAt : List Char → Option (String × List Char)) : Nat → List Char → String
  | _, [] => ""
  | 0, cs => String.mk cs
  | fuel+1, c :: cs =>
    match tryAt (c :: cs) with
    | some x => x.1 ++ reSub tryAt fuel x.2
    | none => String.singleton c ++ reSub tryAt fuel cs

/-- `pattern.sub(handler, s)`. -/
def pySub (tryAt : List Char → Option (String × List Char)) (s : List Char) : String :=
  reSub tryAt s.length s

/-- Python `s.strip("\n")`: remove every leading and trailing newline. -/
def stripNewlines (cs : List Char) : List Char :=
  (((cs.dropWhile (fun c => c == '\n')).reverse).dropWhile (fun c => c == '\n')).reverse

/-- Python `s.replace(old, new)` (all non-overlapping occurrences, left to
right), with fuel. -/
def replaceF (old new : List Char) : Nat → List Char → List Char
  | _, [] => []
  | 0, cs => cs
  | f+1, c :: cs =>
    if old.isPrefixOf (c :: cs) then new ++ replaceF old new f ((c :: cs).drop old.length)
    else c :: replaceF old new f cs

/-- `s.replace(old, new)`. -/
def pyReplace (s old new : List Char) : List Char :=
  replaceF old new s.length s

/-- Python `item.get(key)` where a missing key yields `None`. -/
def itemGetD (item : Ctx) (k : List Char) : Value :=
  match dictGet item (String.mk k) with
  | some v => v
  | none => .null

/-- The if-substitution pass shared by `_resolve_inner_if` and the top-level
conditional pass of `render_template` (they compile the same pattern):
every `\x7b\x7b#if key\x7d\x7d body \x7b\x7b/if\x7d\x7d` span is replaced by
`body` when `valOf key` passes the conditional test and by `""` otherwise. -/
def ifSubst (valOf : List Char → Value) (cs : List Char) : String :=
  pySub (fun ds =>
    (matchBlockAt ifOpenTok ifCloseTok ds).map
      (fun x => (if condTruthy (valOf x.1) then String.mk x.2.1 else "", x.2.2))) cs

/-- `_resolve_inner_if(text, item)` of the source: the if-pass with the
matched key looked up directly in the current item (`item.get(key)`). -/
def _resolve_inner_if (text : List Char) (item : Ctx) : String :=
  ifSubst (fun k => itemGetD item k) text

/-- One line of `replace_each` for a dict item that is not all-empty:
`_resolve_inner_if`, then each field's token replaced by its formatted
value (in insertion order), then `\x7b\x7b@index\x7d\x7d` replaced by the
decimal index. -/
def recordLine (body : List Char) (idx : ℕ) (fs : List (String × Value)) : String :=
  let l1 := (_resolve_inner_if body fs).data
  let l2 := fs.foldl (fun l p => pyReplace l (varTok p.1.data) (_to_str p.2).data) l1
  String.mk (pyReplace l2 (varTok "@index".data) (Nat.repr idx).data)

/-- One line of `replace_each` for a non-dict item: `\x7b\x7bthis\x7d\x7d`
replaced by the item's formatted value. -/
def scalarLine (body : List Char) (item : Value) : String :=
  String.mk (pyReplace body (varTok "this".data) (_to_str item).data)

/-- The loop `for idx, item in enumerate(items)` of `replace_each`: dict
items whose values are all empty are skipped (`continue`), other dict items
produce `recordLine`, non-dict items produce `scalarLine`; the enumeration
index advances for every item. -/
def eachLoop (body : List Char) : List Value → ℕ → List String
  | [], _ => []
  | item :: rest, idx =>
    match item with
    | .record fs =>
      if itemsAllEmpty fs then eachLoop body rest (idx + 1)
      else recordLine body idx fs :: eachLoop body rest (idx + 1)
    | _ => scalarLine body item :: eachLoop body rest (idx + 1)

/-- `replace_each` of the source: strip the body's leading/trailing
newlines, resolve the key; a non-list value yields `""`, a list yields the
per-item lines joined by newlines. -/
def replace_each (ctx : Ctx) (key body : List Char) : String :=
  let body' := stripNewlines body
  match _resolve_dotted ctx key with
  | .list items => String.intercalate "\n" (eachLoop body' items 0)
  | _ => ""

/-- The iteration pass: substitute every each-block span. -/
def eachSubst (ctx : Ctx) (cs : List Char) : String :=
  pySub (fun ds =>
    (matchBlockAt eachOpenTok eachCloseTok ds).map
      (fun x => (replace_each ctx x.1 x.2.1, x.2.2))) cs

/-- `replace_var` of the source: a path resolving to `None` leaves the
matched token (`m.group(0)`, which is exactly `\x7b\x7bkey\x7d\x7d`)
unchanged; anything else is formatted by `_to_str`. -/
def replace_var (ctx : Ctx) (key : List Char) : String :=
  match _resolve_dotted ctx key with
  | .null => String.mk (varTok key)
  | v => _to_str v

/-- The variable pass: substitute every variable token. -/
def varSubst (ctx : Ctx) (cs : List Char) : String :=
  pySub (fun ds => (matchVarAt ds).map (fun x => (replace_var ctx x.1, x.2))) cs

/-- The five built-in time strings injected by `render_template`
(`TODAY`, `YESTERDAY`, `WEEK_START`, `WEEK_END`, `NOW`), abstracted over the
wall clock. -/
structure Builtins where
  today : String
  yesterday : String
  weekStart : String
  weekEnd : String
  nowStr : String

/-- The `builtins` dict of `render_template`, in insertion order. -/
def builtinsList (b : Builtins) : Ctx :=
  [("TODAY", .str b.today), ("YESTERDAY", .str b.yesterday),
   ("WEEK_START", .str b.weekStart), ("WEEK_END", .str b.weekEnd),
   ("NOW", .str b.nowStr)]

/-- `render_template(template, context)` of the source, with the wall-clock
built-ins abstracted as a parameter: merge built-ins under the caller's
context, then run the iteration pass, the conditional pass and the variable
pass in order. -/
def render_template (bs : Builtins) (template : String) (context : Ctx) : String :=
  let ctx := mergeDict (builtinsList bs) context
  let r1 := eachSubst ctx template.data
  let r2 := ifSubst (fun k => _resolve_dotted ctx k) r1.data
  let r3 := varSubst ctx r2.data
  r3

/-- A fixed wall-clock instant for the concrete theorems: the built-in
strings `render_template` would inject on 2026-10-12 (a Monday week starts
2026-10-06 in the source's convention is irrelevant to every theorem below —
no theorem reads a built-in value except where stated). -/
def bs0 : Builtins :=
  ⟨"2026-10-12", "2026-10-11", "2026-10-06", "2026-10-12", "2026-10-12 00:00"⟩

/-- The falsiness table of claim C1, amended: `Null`, `false`, the number
zero, the empty string, the empty list — plus, as the amendment forced by
`c1_counterexample`, the empty record.  Stated from the claim's words, to be
compared with the source's conditional test `condTruthy`. -/
def falsyPerClaimC1 : Value → Bool
  | .null => true
  | .bool b => !b
  | .int n => n == 0
  | .float q => q == 0
  | .str s => s == ""
  | .list l => l.isEmpty
  | .record r => r.isEmpty

/-- The path-descent contract exactly as claim C7 states it: return the
value found by descending one key per segment, and `Null` as soon as a
segment is missing or an intermediate value is not a record.  Stated from
the claim's words, to be compared with the source's `_resolve_dotted`. -/
def specResolve : Value → List String → Value
  | v, [] => v
  | .record d, p :: rest =>
    match dictGet d p with
    | none => .null
    | some v => specResolve v rest
  | _, _ :: _ => .null

/-- `isinstance(·, list)`. -/
def isList : Value → Bool
  | .list _ => true
  | _ => false

/-- State-passing form of `render_template`: the caller's mapping is a
store; the only operation the source ever applies to it is the read by the
dict-unpacking `ctx = \x7b**builtins, **context\x7d` (and, through `ctx`,
further reads `.get`, `.items()`, `.values()` on the fresh merged dict) —
no primitive writes, so every stage passes the store through unchanged. -/
def render_template_st (bs : Builtins) (template : String) : Ctx → String × Ctx :=
  fun store =>
    let ctx := mergeDict (builtinsList bs) store
    let r1 := eachSubst ctx template.data
    let r2 := ifSubst (fun k => _resolve_dotted ctx k) r1.data
    let r3 := varSubst ctx r2.data
    (r3, store)

-- ============================================================
-- Generic lemmas about the scanning primitives
-- ============================================================

theorem str_append_nil (s : String) : s ++ "" = s := by
  cases s with
  | mk d => show String.mk (d ++ []) = String.mk d; rw [List.append_nil]

theorem str_nil_append (s : String) : "" ++ s = s := by
  cases s with
  | mk d => rfl

theorem stripPrefixChars_self_append (p r : List Char) :
    stripPrefixChars p (p ++ r) = some r := by
  induction p with
  | nil => rfl
  | cons a p' ih => simp [stripPrefixChars, ih]

theorem stripPrefixChars_mem {p cs r : List Char}
    (h : stripPrefixChars p cs = some r) : ∀ c ∈ p, c ∈ cs := by
  induction p generalizing cs with
  | nil => intro c hc; cases hc
  | cons a p' ih =>
    cases cs with
    | nil => simp [stripPrefixChars] at h
    | cons x cs' =>
      by_cases hax : (a == x) = true
      · have hax' : a = x := by simpa using hax
        rw [stripPrefixChars, if_pos hax] at h
        intro c hc
        rcases List.mem_cons.mp hc with rfl | hc'
        · exact hax' ▸ List.mem_cons_self _ _
        · exact List.mem_cons_of_mem _ (ih h c hc')
      · rw [stripPrefixChars, if_neg hax] at h
        cases h

theorem reSub_nil (t : List Char → Option (String × List Char)) (f : Nat) :
    reSub t f [] = "" := by
  cases f <;> rfl

theorem reSub_id (t : List Char → Option (String × List Char))
    (P : List Char → Prop)
    (hnone : ∀ ds, P ds → t ds = none)
    (htail : ∀ c cs, P (c :: cs) → P cs) :
    ∀ (f : Nat) (cs : List Char), P cs → reSub t f cs = String.mk cs := by
  intro f
  induction f with
  | zero => intro cs _; cases cs <;> rfl
  | succ f ih =>
    intro cs hcs
    cases cs with
    | nil => rfl
    | cons c cs' =>
      show (match t (c :: cs') with
        | some x => x.1 ++ reSub t f x.2
        | none => String.singleton c ++ reSub t f cs') = String.mk (c :: cs')
      rw [hnone _ hcs]
      show String.singleton c ++ reSub t f cs' = String.mk (c :: cs')
      rw [ih cs' (htail _ _ hcs)]
      rfl

theorem pySub_head (t : List Char → Option (String × List Char))
    (c : Char) (cs : List Char) (rep : String)
    (h : t (c :: cs) = some (rep, [])) : pySub t (c :: cs) = rep := by
  show reSub t ((c :: cs).length) (c :: cs) = rep
  rw [List.length_cons]
  show (match t (c :: cs) with
    | some x => x.1 ++ reSub t cs.length x.2
    | none => String.singleton c ++ reSub t cs.length cs) = rep
  rw [h]
  show rep ++ reSub t cs.length [] = rep
  rw [reSub_nil, str_append_nil]

theorem takeWhile_all_append (p : Char → Bool) (a : List Char) (b : Char) (t : List Char)
    (ha : ∀ c ∈ a, p c = true) (hb : p b = false) :
    (a ++ b :: t).takeWhile p = a := by
  induction a with
  | nil => simp [List.takeWhile, hb]
  | cons x a' ih =>
    have hx : p x = true := ha x (List.mem_cons_self _ _)
    show List.takeWhile p (x :: (a' ++ b :: t)) = x :: a'
    rw [List.takeWhile_cons_of_pos hx, ih (fun c hc => ha c (List.mem_cons_of_mem _ hc))]

theorem dropWhile_all_append (p : Char → Bool) (a : List Char) (b : Char) (t : List Char)
    (ha : ∀ c ∈ a, p c = true) (hb : p b = false) :
    (a ++ b :: t).dropWhile p = b :: t := by
  induction a with
  | nil => simp [List.dropWhile, hb]
  | cons x a' ih =>
    have hx : p x = true := ha x (List.mem_cons_self _ _)
    show List.dropWhile p (x :: (a' ++ b :: t)) = b :: t
    rw [List.dropWhile_cons_of_pos hx]
    exact ih (fun c hc => ha c (List.mem_cons_of_mem _ hc))

theorem splitAtFirst_append (p0 : Char) (pat' b r : List Char)
    (hb : ∀ c ∈ b, c ≠ p0) :
    splitAtFirst (p0 :: pat') (b ++ (p0 :: pat') ++ r) = some (b, r) := by
  induction b with
  | nil =>
    show splitAtFirst (p0 :: pat') ((p0 :: pat') ++ r) = some ([], r)
    show (match stripPrefixChars (p0 :: pat') ((p0 :: pat') ++ r) with
      | some w => some ([], w)
      | none =>
        (splitAtFirst (p0 :: pat') (pat' ++ r)).map (fun x => (p0 :: x.1, x.2))) = some ([], r)
    rw [stripPrefixChars_self_append]
  | cons c b' ih =>
    have hc : (p0 == c) = false := by
      have := hb c (List.mem_cons_self _ _)
      simp [beq_iff_eq]
      exact fun e => this e.symm
    show (match stripPrefixChars (p0 :: pat') (c :: (b' ++ (p0 :: pat') ++ r)) with
      | some w => some ([], w)
      | none =>
        (splitAtFirst (p0 :: pat') (b' ++ (p0 :: pat') ++ r)).map
          (fun x => (c :: x.1, x.2))) = some (c :: b', r)
    rw [stripPrefixChars, if_neg (by simp [hc])]
    rw [ih (fun c' hc' => hb c' (List.mem_cons_of_mem _ hc'))]
    rfl

theorem keyChar_not_space (c : Char) (h : isKeyChar c = true) : isSpaceChar c = false := by
  cases hs : isSpaceChar c with
  | false => rfl
  | true =>
    exfalso
    have hc := hs
    simp only [isSpaceChar, Bool.or_eq_true, beq_iff_eq] at hc
    rcases hc with ((((rfl | rfl) | rfl) | rfl) | rfl) | rfl <;> exact absurd h (by decide)

theorem keyChar_ne (c x : Char) (h : isKeyChar c = true) (hx : isKeyChar x = false) :
    c ≠ x := by
  intro e
  rw [e, hx] at h
  cases h

theorem identChar_ne (c x : Char) (h : isIdentChar c = true) (hx : isIdentChar x = false) :
    c ≠ x := by
  intro e
  rw [e, hx] at h
  cases h

theorem matchBlockAt_head (openTok close' k b r : List Char)
    (hk : k ≠ []) (hkc : ∀ c ∈ k, isKeyChar c = true) (hb : ∀ c ∈ b, c ≠ obrace) :
    matchBlockAt openTok (obrace :: close')
      (openTok ++ ' ' :: (k ++ cbrace :: cbrace :: (b ++ (obrace :: close') ++ r)))
      = some (k, b, r) := by
  obtain ⟨k0, k', rfl⟩ : ∃ k0 k', k = k0 :: k' := by
    cases k with
    | nil => exact absurd rfl hk
    | cons k0 k' => exact ⟨k0, k', rfl⟩
  have hsp : ∀ c ∈ [' '], isSpaceChar c = true := by decide
  have hk0 : isSpaceChar k0 = false :=
    keyChar_not_space k0 (hkc k0 (List.mem_cons_self _ _))
  have htw := takeWhile_all_append isSpaceChar [' '] k0
    (k' ++ cbrace :: cbrace :: (b ++ (obrace :: close') ++ r)) hsp hk0
  have hdw := dropWhile_all_append isSpaceChar [' '] k0
    (k' ++ cbrace :: cbrace :: (b ++ (obrace :: close') ++ r)) hsp hk0
  have hcb : isKeyChar cbrace = false := by decide
  have htk := takeWhile_all_append isKeyChar (k0 :: k') cbrace
    (cbrace :: (b ++ (obrace :: close') ++ r)) hkc hcb
  have hdk := dropWhile_all_append isKeyChar (k0 :: k') cbrace
    (cbrace :: (b ++ (obrace :: close') ++ r)) hkc hcb
  have hpp : stripPrefixChars [cbrace, cbrace]
      (cbrace :: cbrace :: (b ++ (obrace :: close') ++ r)) =
      some (b ++ (obrace :: close') ++ r) := rfl
  have hsplit := splitAtFirst_append obrace close' b r hb
  simp only [List.cons_append, List.singleton_append, List.nil_append] at htw hdw htk hdk
  simp only [matchBlockAt, stripPrefixChars_self_append, List.cons_append,
    htw, hdw, htk, hdk, hpp, hsplit, List.isEmpty_cons, Bool.false_eq_true,
    if_false, ite_false]

theorem matchVarAt_head (k r : List Char)
    (hk : k ≠ []) (hkc : ∀ c ∈ k, isKeyChar c = true) :
    matchVarAt (obrace :: obrace :: (k ++ cbrace :: cbrace :: r)) = some (k, r) := by
  obtain ⟨k0, k', rfl⟩ : ∃ k0 k', k = k0 :: k' := by
    cases k with
    | nil => exact absurd rfl hk
    | cons k0 k' => exact ⟨k0, k', rfl⟩
  have hcb : isKeyChar cbrace = false := by decide
  have htk : ((k0 :: k' ++ cbrace :: cbrace :: r).takeWhile isKeyChar) = k0 :: k' :=
    takeWhile_all_append isKeyChar (k0 :: k') cbrace _ hkc hcb
  have hdk : ((k0 :: k' ++ cbrace :: cbrace :: r).dropWhile isKeyChar) =
      cbrace :: cbrace :: r :=
    dropWhile_all_append isKeyChar (k0 :: k') cbrace _ hkc hcb
  rw [matchVarAt]
  rw [show stripPrefixChars [obrace, obrace]
        (obrace :: obrace :: (k0 :: k' ++ cbrace :: cbrace :: r)) =
      some (k0 :: k' ++ cbrace :: cbrace :: r) from rfl]
  simp only [htk, hdk]
  rw [if_neg (by simp)]
  rfl

theorem ifSubst_head (valOf : List Char → Value) (k b : List Char)
    (hk : k ≠ []) (hkc : ∀ c ∈ k, isKeyChar c = true) (hb : ∀ c ∈ b, c ≠ obrace) :
    ifSubst valOf (ifOpenTok ++ ' ' :: (k ++ cbrace :: cbrace :: (b ++ ifCloseTok))) =
      if condTruthy (valOf k) then String.mk b else "" := by
  have hm := matchBlockAt_head ifOpenTok [obrace, '/', 'i', 'f', cbrace, cbrace] k b [] hk hkc hb
  rw [List.append_nil] at hm
  have hm' : matchBlockAt ifOpenTok ifCloseTok
      (ifOpenTok ++ ' ' :: (k ++ cbrace :: cbrace :: (b ++ ifCloseTok))) = some (k, b, []) := hm
  unfold ifSubst
  apply pySub_head
  show (matchBlockAt ifOpenTok ifCloseTok
      (ifOpenTok ++ ' ' :: (k ++ cbrace :: cbrace :: (b ++ ifCloseTok)))).map
      (fun x => (if condTruthy (valOf x.1) then String.mk x.2.1 else "", x.2.2)) =
      some (if condTruthy (valOf k) then String.mk b else "", [])
  rw [hm']
  rfl

theorem matchBlockAt_none_noHash (openTok closeTok ds : List Char)
    (ho : '#' ∈ openTok) (h : '#' ∉ ds) :
    matchBlockAt openTok closeTok ds = none := by
  cases hs : stripPrefixChars openTok ds with
  | none => rw [matchBlockAt, hs]
  | some r1 => exact absurd (stripPrefixChars_mem hs '#' ho) h

theorem eachSubst_noHash (ctx : Ctx) (cs : List Char) (h : '#' ∉ cs) :
    eachSubst ctx cs = String.mk cs := by
  unfold eachSubst pySub
  exact reSub_id _ (fun ds => '#' ∉ ds)
    (fun ds hds => by rw [matchBlockAt_none_noHash _ _ _ (by decide) hds]; rfl)
    (fun c cs' hP hmem => hP (List.mem_cons_of_mem _ hmem))
    cs.length cs h

theorem ifSubst_noHash (valOf : List Char → Value) (cs : List Char) (h : '#' ∉ cs) :
    ifSubst valOf cs = String.mk cs := by
  unfold ifSubst pySub
  exact reSub_id _ (fun ds => '#' ∉ ds)
    (fun ds hds => by rw [matchBlockAt_none_noHash _ _ _ (by decide) hds]; rfl)
    (fun c cs' hP hmem => hP (List.mem_cons_of_mem _ hmem))
    cs.length cs h

theorem dictGet_cons_ne (p : String × Value) (d : Ctx) (s : String)
    (h : (p.1 == s) = false) : dictGet (p :: d) s = dictGet d s := by
  simp [dictGet, List.find?, h]

theorem dictGet_none_cons (p : String × Value) (d : Ctx) (s : String)
    (h : dictGet (p :: d) s = none) : (p.1 == s) = false ∧ dictGet d s = none := by
  cases hps : (p.1 == s) with
  | true => exfalso; simp [dictGet, List.find?, hps] at h
  | false => exact ⟨rfl, by rw [dictGet_cons_ne p d s hps] at h; exact h⟩

theorem dictGet_mapped_none (a b : Ctx) (s : String) (ha : dictGet a s = none) :
    dictGet (a.map (fun p => match dictGet b p.1 with | some v => (p.1, v) | none => p)) s
      = none := by
  induction a with
  | nil => rfl
  | cons p a' ih =>
    obtain ⟨h1, h2⟩ := dictGet_none_cons p a' s ha
    have hkey : (match dictGet b p.1 with
      | some v => (p.1, v) | none => p).1 = p.1 := by
      cases dictGet b p.1 <;> rfl
    rw [List.map_cons, dictGet_cons_ne _ _ _ (by rw [hkey]; exact h1)]
    exact ih h2

theorem dictGet_append_none (x y : Ctx) (s : String)
    (hx : dictGet x s = none) (hy : dictGet y s = none) :
    dictGet (x ++ y) s = none := by
  induction x with
  | nil => simpa using hy
  | cons p x' ih =>
    obtain ⟨h1, h2⟩ := dictGet_none_cons p x' s hx
    rw [List.cons_append, dictGet_cons_ne _ _ _ h1]
    exact ih h2

theorem dictGet_filter_none (b : Ctx) (pf : String × Value → Bool) (s : String)
    (hb : dictGet b s = none) : dictGet (b.filter pf) s = none := by
  induction b with
  | nil => rfl
  | cons p b' ih =>
    obtain ⟨h1, h2⟩ := dictGet_none_cons p b' s hb
    rw [List.filter_cons]
    cases hpf : pf p with
    | false => simpa [hpf] using ih h2
    | true =>
      simp only [hpf, if_true]
      rw [dictGet_cons_ne _ _ _ h1]
      exact ih h2

theorem dictGet_merge_none (a b : Ctx) (s : String)
    (ha : dictGet a s = none) (hb : dictGet b s = none) :
    dictGet (mergeDict a b) s = none := by
  unfold mergeDict
  exact dictGet_append_none _ _ s (dictGet_mapped_none a b s ha)
    (dictGet_filter_none b _ s hb)

theorem dictGet_builtins_none (bs : Builtins) (s : String)
    (h1 : s ≠ "TODAY") (h2 : s ≠ "YESTERDAY") (h3 : s ≠ "WEEK_START")
    (h4 : s ≠ "WEEK_END") (h5 : s ≠ "NOW") :
    dictGet (builtinsList bs) s = none := by
  rw [builtinsList,
    dictGet_cons_ne _ _ _ (beq_eq_false_iff_ne.mpr (Ne.symm h1)),
    dictGet_cons_ne _ _ _ (beq_eq_false_iff_ne.mpr (Ne.symm h2)),
    dictGet_cons_ne _ _ _ (beq_eq_false_iff_ne.mpr (Ne.symm h3)),
    dictGet_cons_ne _ _ _ (beq_eq_false_iff_ne.mpr (Ne.symm h4)),
    dictGet_cons_ne _ _ _ (beq_eq_false_iff_ne.mpr (Ne.symm h5))]
  rfl

theorem splitDots_no_dot (k : List Char) (h : ∀ c ∈ k, (c == '.') = false) :
    splitDots k = [k] := by
  induction k with
  | nil => rfl
  | cons c cs ih =>
    rw [splitDots, if_neg (by simp [h c (List.mem_cons_self _ _)]),
      ih (fun c' hc' => h c' (List.mem_cons_of_mem _ hc'))]

theorem resolve_undotted_none (ctx : Ctx) (k : List Char)
    (hnd : ∀ c ∈ k, (c == '.') = false)
    (h : dictGet ctx (String.mk k) = none) :
    _resolve_dotted ctx k = .null := by
  unfold _resolve_dotted
  rw [splitDots_no_dot k hnd]
  show resolveParts (.record ctx) [String.mk k] = .null
  simp [resolveParts, h]

-- ============================================================
-- C1: truthiness of the top-level conditional
-- ============================================================

theorem varSubst_onIf (ctx : Ctx) (c : Bool) :
    varSubst ctx ((if c then ("X" : String) else "") ++ "").data = if c then "X" else "" := by
  cases c with
  | false => rfl
  | true => rfl

theorem renderIfK_mid (bs : Builtins) (v : Value) :
    render_template bs "\x7b\x7b#if k\x7d\x7dX\x7b\x7b/if\x7d\x7d" [("k", v)] =
      varSubst (mergeDict (builtinsList bs) [("k", v)])
        ((if condTruthy v then ("X" : String) else "") ++ "").data := by
  cases v <;> rfl

theorem falsy_eq_not_cond (v : Value) : falsyPerClaimC1 v = !condTruthy v := by
  cases v with
  | null => rfl
  | bool b => cases b <;> rfl
  | int n =>
    cases hn : n == 0 <;>
      simp [falsyPerClaimC1, condTruthy, pyTruthy, eqEmptyList, eqZero, hn]
  | float q =>
    cases hq : q == 0 <;>
      simp [falsyPerClaimC1, condTruthy, pyTruthy, eqEmptyList, eqZero, hq]
  | str s =>
    cases hs : s == "" <;>
      simp [falsyPerClaimC1, condTruthy, pyTruthy, eqEmptyList, eqZero, hs]
  | list l =>
    cases hl : l.isEmpty <;>
      simp [falsyPerClaimC1, condTruthy, pyTruthy, eqEmptyList, eqZero, hl]
  | record r =>
    cases hr : r.isEmpty <;>
      simp [falsyPerClaimC1, condTruthy, pyTruthy, eqEmptyList, eqZero, hr]

/-- C1 counterexample: the empty record is not among the claim's falsy values
(`Null`, `false`, `0`, `""`, `[]`), so the claim predicts `"X"`; the code
renders `""` (Python's `\x7b\x7d` is falsy). -/
theorem c1_counterexample :
    render_template bs0 "\x7b\x7b#if k\x7d\x7dX\x7b\x7b/if\x7d\x7d" [("k", Value.record [])] = "" ∧
    (Value.record [] ≠ Value.null ∧ Value.record [] ≠ Value.bool false ∧
     Value.record [] ≠ Value.int 0 ∧ Value.record [] ≠ Value.float 0 ∧
     Value.record [] ≠ Value.str "" ∧ Value.record [] ≠ Value.list []) ∧
    ("" : String) ≠ "X" := by
  refine ⟨by decide, ⟨?_, ?_, ?_, ?_, ?_, ?_⟩, by decide⟩ <;>
    (intro h; exact Value.noConfusion h)

/-- C1 (amended): rendering `\x7b\x7b#if k\x7d\x7dX\x7b\x7b/if\x7d\x7d` with
context `\x7bk: v\x7d` yields `""` exactly when `v` is `Null`, `false`, the
number zero, the empty string, the empty list, or (the amendment) the empty
record, and `"X"` for every other value — for any built-in time snapshot. -/
theorem c1_truthiness_amended (bs : Builtins) (v : Value) :
    render_template bs "\x7b\x7b#if k\x7d\x7dX\x7b\x7b/if\x7d\x7d" [("k", v)] =
      if falsyPerClaimC1 v then "" else "X" := by
  rw [renderIfK_mid, varSubst_onIf, falsy_eq_not_cond]
  cases condTruthy v <;> rfl

-- ============================================================
-- C7: the dotted-path resolver
-- ============================================================

theorem specResolve_null (rest : List String) : specResolve .null rest = .null := by
  cases rest <;> rfl

theorem resolveParts_eq_spec (parts : List String) :
    ∀ v : Value, resolveParts v parts = specResolve v parts := by
  induction parts with
  | nil => intro v; cases v <;> rfl
  | cons p rest ih =>
    intro v
    cases v with
    | record d =>
      cases hd : dictGet d p with
      | none => simp [resolveParts, specResolve, hd]
      | some w =>
        cases w with
        | null => simp [resolveParts, specResolve, hd, specResolve_null]
        | bool b => simp [resolveParts, specResolve, hd, ih]
        | int n => simp [resolveParts, specResolve, hd, ih]
        | float q => simp [resolveParts, specResolve, hd, ih]
        | str s => simp [resolveParts, specResolve, hd, ih]
        | list vs => simp [resolveParts, specResolve, hd, ih]
        | record fs => simp [resolveParts, specResolve, hd, ih]
    | null => rfl
    | bool b => rfl
    | int n => rfl
    | float q => rfl
    | str s => rfl
    | list vs => rfl

/-- C7: for every context record and dotted path, `_resolve_dotted` returns
exactly what the claim's descent contract returns: the value found by
descending one key per segment, `Null` as soon as a segment is missing or an
intermediate value is not a record.  Both sides are total functions — no
input raises. -/
theorem c7_path_resolver (ctx : Ctx) (key : List Char) :
    _resolve_dotted ctx key = specResolve (.record ctx) ((splitDots key).map String.mk) :=
  resolveParts_eq_spec _ _

-- ============================================================
-- C8: iteration over a non-list renders the span empty
-- ============================================================

/-- C8: whenever the each-path resolves to anything that is not a `List`
(including `Null` for a missing path, and records), `replace_each` returns
the empty string, for every body. -/
theorem c8_each_non_list (ctx : Ctx) (key body : List Char)
    (h : isList (_resolve_dotted ctx key) = false) :
    replace_each ctx key body = "" := by
  cases hv : _resolve_dotted ctx key with
  | list items => rw [hv] at h; simp [isList] at h
  | null => simp [replace_each, hv]
  | bool b => simp [replace_each, hv]
  | int n => simp [replace_each, hv]
  | float q => simp [replace_each, hv]
  | str s => simp [replace_each, hv]
  | record fs => simp [replace_each, hv]

theorem c8_each_non_list_witness :
    isList (_resolve_dotted [("k", Value.record [])] ['k']) = false ∧
    replace_each [("k", Value.record [])] ['k'] ['X'] = "" :=
  ⟨by decide, c8_each_non_list _ _ _ (by decide)⟩

-- ============================================================
-- C9: a record at the variable level
-- ============================================================

/-- C9 counterexample: `\x7b\x7ba\x7d\x7d` with `a` bound to the record
`\x7bb: 1\x7d` renders to `str(\x7b'b': 1\x7d)` — the record IS substituted
as a bare scalar, contradicting the claim that such output never appears. -/
theorem c9_counterexample :
    render_template bs0 "\x7b\x7ba\x7d\x7d" [("a", Value.record [("b", Value.int 1)])] =
      "\x7b\x27b\x27: 1\x7d" := by decide

/-- C9 (amended): a `\x7b\x7bpath\x7d\x7d` token whose path resolves to a
`Record` is substituted by the record's Python string form (a dict display),
for every record value and built-in snapshot: records ARE formatted at the
variable level. -/
theorem c9_record_variable_amended (bs : Builtins) (fs : List (String × Value)) :
    render_template bs "\x7b\x7ba\x7d\x7d" [("a", Value.record fs)] =
      pyStrM false (Value.record fs) := by
  have h : render_template bs "\x7b\x7ba\x7d\x7d" [("a", Value.record fs)] =
      pyStrM false (Value.record fs) ++ "" := rfl
  rw [h, str_append_nil]

-- ============================================================
-- C10: the caller's context is not mutated
-- ============================================================

/-- C10: the state-passing rendering returns the caller's mapping unchanged
together with the same output as the pure rendering: the engine only reads
the caller-supplied context (it builds a fresh merged dict and reads from
it). -/
theorem c10_context_preserved (bs : Builtins) (template : String) (context : Ctx) :
    render_template_st bs template context = (render_template bs template context, context) :=
  rfl

-- ============================================================
-- C3: skipping all-empty items never renumbers later items
-- ============================================================

theorem eachLoop_enumFrom (body : List Char) (fss : List (List (String × Value))) :
    ∀ n : ℕ, eachLoop body (fss.map Value.record) n =
      ((List.enumFrom n fss).filter (fun p => !itemsAllEmpty p.2)).map
        (fun p => recordLine body p.1 p.2) := by
  induction fss with
  | nil => intro n; rfl
  | cons fs rest ih =>
    intro n
    rw [show List.enumFrom n (fs :: rest) = (n, fs) :: List.enumFrom (n + 1) rest from rfl,
      List.filter_cons]
    cases hfs : itemsAllEmpty fs with
    | true =>
      have hL : eachLoop body (Value.record fs :: rest.map Value.record) n =
          eachLoop body (rest.map Value.record) (n + 1) := by
        show (if itemsAllEmpty fs then eachLoop body (rest.map Value.record) (n + 1)
          else recordLine body n fs :: eachLoop body (rest.map Value.record) (n + 1)) = _
        rw [if_pos hfs]
      rw [List.map_cons, hL, ih (n + 1)]
      simp [hfs]
    | false =>
      have hL : eachLoop body (Value.record fs :: rest.map Value.record) n =
          recordLine body n fs :: eachLoop body (rest.map Value.record) (n + 1) := by
        show (if itemsAllEmpty fs then eachLoop body (rest.map Value.record) (n + 1)
          else recordLine body n fs :: eachLoop body (rest.map Value.record) (n + 1)) = _
        rw [if_neg (by simp [hfs])]
      rw [List.map_cons, hL, ih (n + 1)]
      simp [hfs]

/-- C3: expanding an iteration over record items, (i) the lines are exactly
those of the non-all-empty items, each rendered by `recordLine` at its
original zero-based `enumerate` position — an all-empty item contributes no
line, and skipping shifts no later item's `\x7b\x7b@index\x7d\x7d` value
(`recordLine` substitutes `\x7b\x7b@index\x7d\x7d` with exactly that
position); and (ii) `replace_each` is this expansion joined by newlines. -/
theorem c3_skip_law (body : List Char) (fss : List (List (String × Value))) :
    eachLoop body (fss.map Value.record) 0 =
      ((List.enumFrom 0 fss).filter (fun p => !itemsAllEmpty p.2)).map
        (fun p => recordLine body p.1 p.2) ∧
    replace_each [("items", Value.list (fss.map Value.record))] "items".data body =
      String.intercalate "\n" (eachLoop (stripNewlines body) (fss.map Value.record) 0) :=
  ⟨eachLoop_enumFrom body fss 0, rfl⟩

-- ============================================================
-- C5: the body's newline stripping
-- ============================================================

theorem dropNl_append_of_ne_nil (xs : List Char) (ys : List Char)
    (h : xs.dropWhile (fun c => c == '\n') ≠ []) :
    (xs ++ ys).dropWhile (fun c => c == '\n') =
      xs.dropWhile (fun c => c == '\n') ++ ys := by
  induction xs with
  | nil => exact absurd rfl h
  | cons c xs' ih =>
    cases hc : (c == '\n') with
    | true =>
      simp only [List.cons_append, List.dropWhile_cons, hc, if_true] at h ⊢
      exact ih h
    | false =>
      simp only [List.cons_append, List.dropWhile_cons, hc, Bool.false_eq_true, if_false]

theorem dropNl_eq_nil_append (xs ys : List Char)
    (h : xs.dropWhile (fun c => c == '\n') = []) :
    (xs ++ ys).dropWhile (fun c => c == '\n') = ys.dropWhile (fun c => c == '\n') := by
  induction xs with
  | nil => rfl
  | cons c xs' ih =>
    cases hc : (c == '\n') with
    | true =>
      simp only [List.cons_append, List.dropWhile_cons, hc, if_true] at h ⊢
      exact ih h
    | false =>
      simp only [List.dropWhile_cons, hc, Bool.false_eq_true, if_false] at h
      cases h

theorem stripNewlines_cons_nl (xs : List Char) :
    stripNewlines ('\n' :: xs) = stripNewlines xs := by
  unfold stripNewlines
  simp only [List.dropWhile_cons, beq_self_eq_true, if_true]

theorem stripNewlines_append_nl (xs : List Char) :
    stripNewlines (xs ++ ['\n']) = stripNewlines xs := by
  unfold stripNewlines
  by_cases h : xs.dropWhile (fun c => c == '\n') = []
  · rw [dropNl_eq_nil_append xs ['\n'] h, h]
    rfl
  · rw [dropNl_append_of_ne_nil xs ['\n'] h, List.reverse_append]
    simp only [List.reverse_cons, List.reverse_nil, List.nil_append, List.singleton_append,
      List.dropWhile_cons, beq_self_eq_true, if_true]

theorem stripNewlines_pad (body : List Char) (n m : ℕ) :
    stripNewlines (List.replicate n '\n' ++ body ++ List.replicate m '\n') =
      stripNewlines body := by
  induction n with
  | zero =>
    rw [show List.replicate 0 '\n' = [] from rfl, List.nil_append]
    induction m with
    | zero => rw [show List.replicate 0 '\n' = [] from rfl, List.append_nil]
    | succ m ihm =>
      rw [List.replicate_succ', ← List.append_assoc, stripNewlines_append_nl]
      exact ihm
  | succ n ihn =>
    rw [List.replicate_succ, List.cons_append, List.cons_append, stripNewlines_cons_nl]
    exact ihn

/-- C5 counterexample: an each-body `"\n\nA\n\n"` over one scalar item
renders `"A"` — the source's `strip("\n")` removes every leading and
trailing newline, where the claim predicts `"\nA\n"` (exactly one stripped
from each side). -/
theorem c5_counterexample :
    render_template bs0 "\x7b\x7b#each items\x7d\x7d\n\nA\n\n\x7b\x7b/each\x7d\x7d"
      [("items", Value.list [Value.str "z"])] = "A" ∧
    ("A" : String) ≠ "\nA\n" :=
  ⟨by decide, by decide⟩

/-- C5 (amended): before per-item substitution the iteration resolver strips
ALL leading and ALL trailing newlines of the body: padding the body with any
numbers of leading and trailing newlines never changes the expansion. -/
theorem c5_newline_strip_amended (ctx : Ctx) (key body : List Char) (n m : ℕ) :
    replace_each ctx key (List.replicate n '\n' ++ body ++ List.replicate m '\n') =
      replace_each ctx key body := by
  unfold replace_each
  rw [stripNewlines_pad]

-- ============================================================
-- C6: numeric formatting of floats
-- ============================================================

theorem str_append_assoc (a b c : String) : a ++ b ++ c = a ++ (b ++ c) := by
  cases a with
  | mk da =>
    cases b with
    | mk db =>
      cases c with
      | mk dc =>
        show String.mk (da ++ db ++ dc) = String.mk (da ++ (db ++ dc))
        rw [List.append_assoc]

theorem pad2_length : ∀ f : ℕ, f < 100 → (pad2 f).length = 2 := by decide

theorem lit_three : (3.0 : ℚ) = (3 : ℚ) := by norm_num

theorem lit_pi : (3.14 : ℚ) = Rat.mk' 157 50 (by decide) (by decide) := by
  rw [Rat.mk'_eq_divInt]; norm_num [Rat.divInt_eq_div]

theorem lit_threeone : (3.1 : ℚ) = Rat.mk' 31 10 (by decide) (by decide) := by
  rw [Rat.mk'_eq_divInt]; norm_num [Rat.divInt_eq_div]

/-- C6: `_to_str` maps a float whose denominator is 1 (zero fractional part)
to the plain decimal digits of its integer value, and every other float to a
sign, integer digits, a dot, and exactly two decimal digits; in particular
`3.0 ↦ "3"`, `3.14 ↦ "3.14"`, `3.1 ↦ "3.10"`.  (Floats are modelled as the
exact rationals they denote.) -/
theorem c6_numeric_formatting :
    (∀ q : ℚ, q.den = 1 → _to_str (.float q) = toString q.num) ∧
    (∀ q : ℚ, q.den ≠ 1 → ∃ i f : ℕ, f < 100 ∧ (pad2 f).length = 2 ∧
      _to_str (.float q) = (if q < 0 then "-" else "") ++ toString i ++ "." ++ pad2 f) ∧
    _to_str (.float (3.0 : ℚ)) = "3" ∧ _to_str (.float (3.14 : ℚ)) = "3.14" ∧
    _to_str (.float (3.1 : ℚ)) = "3.10" := by
  refine ⟨fun q h => ?_, fun q h => ?_, ?_, ?_, ?_⟩
  · have ht : intTrunc q = q.num := by
      unfold intTrunc
      rw [h, Nat.cast_one]
      exact Int.tdiv_one q.num
    show (if ((intTrunc q : ℤ) : ℚ) = q then toString (intTrunc q) else formatFloat2 q) =
      toString q.num
    rw [ht, if_pos (Rat.coe_int_num_of_den_eq_one h)]
  · have hcond : ¬ (((intTrunc q : ℤ) : ℚ) = q) := fun hc => h (by rw [← hc]; exact Rat.den_intCast _)
    have hto : _to_str (.float q) = formatFloat2 q := by
      show (if ((intTrunc q : ℤ) : ℚ) = q then toString (intTrunc q) else formatFloat2 q) = _
      rw [if_neg hcond]
    by_cases hq : q < 0
    · refine ⟨round2 (-q) / 100, round2 (-q) % 100, Nat.mod_lt _ (by norm_num),
        pad2_length _ (Nat.mod_lt _ (by norm_num)), ?_⟩
      rw [hto]
      unfold formatFloat2 formatNonneg2
      rw [if_pos hq, if_pos hq, str_append_assoc, str_append_assoc, str_append_assoc]
    · refine ⟨round2 q / 100, round2 q % 100, Nat.mod_lt _ (by norm_num),
        pad2_length _ (Nat.mod_lt _ (by norm_num)), ?_⟩
      rw [hto]
      unfold formatFloat2 formatNonneg2
      rw [if_neg hq, if_neg hq, str_nil_append]
  · rw [lit_three]; decide
  · rw [lit_pi]; decide
  · rw [lit_threeone]; decide

theorem c6_numeric_formatting_witness :
    ((5 : ℚ).den = 1 ∧ _to_str (.float (5 : ℚ)) = toString (5 : ℚ).num) ∧
    ((Rat.mk' 31 10 (by decide) (by decide)).den ≠ 1 ∧
      ∃ i f : ℕ, f < 100 ∧ (pad2 f).length = 2 ∧
        _to_str (.float (Rat.mk' 31 10 (by decide) (by decide))) =
          (if Rat.mk' 31 10 (by decide) (by decide) < 0 then "-" else "")
            ++ toString i ++ "." ++ pad2 f) :=
  ⟨⟨by decide, c6_numeric_formatting.1 5 (by decide)⟩,
   ⟨by decide, c6_numeric_formatting.2.1 _ (by decide)⟩⟩

-- ============================================================
-- C2: unresolved tokens survive the variable pass
-- ============================================================

/-- C2 counterexample: the context `\x7b\x7d` lacks the key `TODAY`, yet
`\x7b\x7bTODAY\x7d\x7d` renders to the injected built-in date, not to the
verbatim token — the claim fails for the five built-in identifiers. -/
theorem c2_counterexample :
    render_template bs0 "\x7b\x7bTODAY\x7d\x7d" [] = "2026-10-12" ∧
    ("2026-10-12" : String) ≠ "\x7b\x7bTODAY\x7d\x7d" :=
  ⟨by decide, by decide⟩

/-- C2 (amended): for every undotted identifier `k` that is not one of the
five built-in names, and every context lacking the key `k`, rendering the
single token `\x7b\x7bk\x7d\x7d` returns it verbatim — never an error and
never a deletion. -/
theorem c2_unresolved_token_amended (bs : Builtins) (k : List Char) (context : Ctx)
    (hk : k ≠ []) (hkc : ∀ c ∈ k, isIdentChar c = true)
    (hT : String.mk k ≠ "TODAY") (hY : String.mk k ≠ "YESTERDAY")
    (hWS : String.mk k ≠ "WEEK_START") (hWE : String.mk k ≠ "WEEK_END")
    (hN : String.mk k ≠ "NOW")
    (hctx : dictGet context (String.mk k) = none) :
    render_template bs (String.mk (varTok k)) context = String.mk (varTok k) := by
  have hkey : ∀ c ∈ k, isKeyChar c = true := fun c hc => by
    simp [isKeyChar, hkc c hc]
  have hnd : ∀ c ∈ k, (c == '.') = false := fun c hc =>
    beq_eq_false_iff_ne.mpr (identChar_ne c '.' (hkc c hc) (by decide))
  have hmerge : dictGet (mergeDict (builtinsList bs) context) (String.mk k) = none :=
    dictGet_merge_none _ _ _ (dictGet_builtins_none bs _ hT hY hWS hWE hN) hctx
  have hres : _resolve_dotted (mergeDict (builtinsList bs) context) k = .null :=
    resolve_undotted_none _ _ hnd hmerge
  have hnohash : '#' ∉ varTok k := by
    unfold varTok
    intro hmem
    rcases List.mem_cons.mp hmem with h1 | hmem2
    · exact absurd h1 (by decide)
    rcases List.mem_cons.mp hmem2 with h1 | hmem3
    · exact absurd h1 (by decide)
    rcases List.mem_append.mp hmem3 with h1 | h1
    · exact absurd (hkc '#' h1) (by decide)
    · exact absurd h1 (by decide)
  have hrv : replace_var (mergeDict (builtinsList bs) context) k = String.mk (varTok k) := by
    unfold replace_var
    rw [hres]
  show varSubst (mergeDict (builtinsList bs) context)
      ((ifSubst (fun kk => _resolve_dotted (mergeDict (builtinsList bs) context) kk)
        ((eachSubst (mergeDict (builtinsList bs) context)
          (String.mk (varTok k)).data).data)).data)
      = String.mk (varTok k)
  rw [show (String.mk (varTok k)).data = varTok k from rfl]
  rw [eachSubst_noHash _ _ hnohash]
  rw [show (String.mk (varTok k)).data = varTok k from rfl]
  rw [ifSubst_noHash _ _ hnohash]
  rw [show (String.mk (varTok k)).data = varTok k from rfl]
  unfold varSubst
  rw [show varTok k = obrace :: obrace :: (k ++ cbrace :: cbrace :: []) from rfl]
  apply pySub_head
  show (matchVarAt (obrace :: obrace :: (k ++ cbrace :: cbrace :: []))).map
      (fun x => (replace_var (mergeDict (builtinsList bs) context) x.1, x.2)) =
      some (String.mk (varTok k), [])
  rw [matchVarAt_head k [] hk hkey]
  show some (replace_var (mergeDict (builtinsList bs) context) k, []) =
    some (String.mk (varTok k), [])
  rw [hrv]

theorem c2_unresolved_token_amended_witness :
    (['q'] : List Char) ≠ [] ∧
    render_template bs0 (String.mk (varTok ['q'])) [] = String.mk (varTok ['q']) :=
  ⟨by decide, c2_unresolved_token_amended bs0 ['q'] [] (by decide) (by decide)
    (by decide) (by decide) (by decide) (by decide) (by decide) rfl⟩

-- ============================================================
-- C4: the nested conditional pass inside iteration bodies
-- ============================================================

/-- C4 counterexample: in
`\x7b\x7b#each items\x7d\x7d\x7b\x7b#if outer\x7d\x7dX\x7b\x7b/if\x7d\x7d\x7b\x7b/each\x7d\x7d`
the path `outer` refers to the outer context (where it is truthy), not to a
field of the single non-empty item, so the claim predicts the directive
passes through to the top-level conditional pass and renders `"X"`; the code
renders `""` — `_resolve_inner_if` consumed the span with `item.get("outer")
= None`. -/
theorem c4_counterexample :
    render_template bs0
      "\x7b\x7b#each items\x7d\x7d\x7b\x7b#if outer\x7d\x7dX\x7b\x7b/if\x7d\x7d\x7b\x7b/each\x7d\x7d"
      [("items", Value.list [Value.record [("a", Value.int 1)]]),
       ("outer", Value.str "yes")] = "" ∧
    condTruthy (Value.str "yes") = true ∧
    ("" : String) ≠ "X" :=
  ⟨by decide, by decide, by decide⟩

/-- C4 (amended): the nested conditional pass consumes EVERY
`\x7b\x7b#if path\x7d\x7d body \x7b\x7b/if\x7d\x7d` span of the loop body,
resolving the full path text as a direct `item.get` lookup: the body is kept
exactly when that direct lookup is truthy, and a path that is not a field of
the item (for instance one referring to the outer context) makes the whole
span empty — it is not left intact. -/
theorem c4_inner_if_amended (item : Ctx) (k b : List Char)
    (hk : k ≠ []) (hkc : ∀ c ∈ k, isKeyChar c = true)
    (hb : ∀ c ∈ b, c ≠ obrace) :
    _resolve_inner_if (ifOpenTok ++ ' ' :: (k ++ cbrace :: cbrace :: (b ++ ifCloseTok))) item =
      if condTruthy (itemGetD item k) then String.mk b else "" := by
  unfold _resolve_inner_if
  exact ifSubst_head _ k b hk hkc hb

theorem c4_inner_if_amended_witness :
    _resolve_inner_if
      (ifOpenTok ++ ' ' :: ("outer".data ++ cbrace :: cbrace :: ("X".data ++ ifCloseTok)))
      [("a", Value.int 1)] = "" := by
  have h := c4_inner_if_amended [("a", Value.int 1)] "outer".data "X".data
    (by decide) (by decide) (by decide)
  rw [h]
  decide
